import Mathlib

/-!
Shallow embedding of the ElephAnt setup core (`elephant_setup.py` and
`elephant_setup_binder.py`): the sectioned key-value configuration document
(`ElephantSetup`, backed by a `configparser.ConfigParser`), its dirty
tracking and change notification, load/save of setup files, and the
prefix-convention GUI binder (`SetupBinder`).

Modeling conventions:
* the `configparser` state is a list of sections in insertion order, each an
  insertion-ordered list of `(key, value)` pairs; configparser stores (ordered)
  dicts, which cannot hold duplicate keys, so first-match lookup below agrees
  with the dict semantics on every reachable state;
* option names go through `optionxform`, which lowercases them, matching
  configparser's default transform (restricted to ASCII letters here);
* the file system is a finite map from path to parsed sectioned content:
  saving stores the document's parsed form, loading merges it back, which
  abstracts the concrete INI text grammar;
* Python return values of `load_setup_file`: `False` on a missing file, and a
  fall-through without `return` (i.e. `None`) on success, modeled as
  `Option Bool` with `none` standing for Python's `None`;
* an `OSError` during save is modeled by an explicit `SaveOutcome` parameter
  naming the point of failure -- at `open`, during `config.write`, or at the
  implicit `close`/flush ending the `with` block (which happens after
  `_set_clean()` has already run) -- since all three are caught by the same
  `except OSError`; the partial file content left behind by a failed write or
  flush is not determined by the source, so those outcomes carry it as data;
* the registered dirty-change callback is opaque, so the model records whether
  one is registered and counts its invocations.
-/

/-- One parsed section: `(key, value)` pairs in insertion order. -/
abbrev SectionData := List (String × String)

/-- configparser's default `optionxform`: lowercase the option name. -/
def optionxform (s : String) : String := ⟨s.data.map Char.toLower⟩

/-- In-memory `ConfigParser` state: the sections in insertion order. -/
structure Config where
  sections : List (String × SectionData)
deriving DecidableEq

/-- A freshly constructed `ConfigParser()`. -/
def emptyConfig : Config := ⟨[]⟩

/-- Assignment into a section's dict: replace the first binding of `key`,
otherwise append the new binding. -/
def setKey : SectionData → String → String → SectionData
  | [], key, value => [(key, value)]
  | (k, v) :: rest, key, value =>
      if k = key then (key, value) :: rest else (k, v) :: setKey rest key value

/-- First binding of `key` in a section's data. -/
def lookupKey : SectionData → String → Option String
  | [], _ => none
  | (k, v) :: rest, key => if k = key then some v else lookupKey rest key

/-- First section with the given name. -/
def findSec : List (String × SectionData) → String → Option SectionData
  | [], _ => none
  | (n, items) :: rest, name => if n = name then some items else findSec rest name

/-- Update the first section with the given name by assigning `key := value`;
if no such section exists, append a new one holding just that binding. -/
def setSec : List (String × SectionData) → String → String → String → List (String × SectionData)
  | [], name, key, value => [(name, [(key, value)])]
  | (n, items) :: rest, name, key, value =>
      if n = name then (n, setKey items key value) :: rest
      else (n, items) :: setSec rest name key value

/-- `ConfigParser.has_section`. -/
def Config.hasSection (c : Config) (name : String) : Bool :=
  (findSec c.sections name).isSome

/-- `ConfigParser.add_section` (every call site guards it with `has_section`,
so we never add a duplicate on a reachable state). -/
def Config.add_section (c : Config) (name : String) : Config :=
  ⟨c.sections ++ [(name, [])]⟩

/-- `ConfigParser.set`; applies `optionxform` to the option name. configparser
raises `NoSectionError` on a missing section, but every call site in the
source first ensures the section exists, so creating it here when missing is
observationally equivalent on all reachable calls. -/
def Config.set (c : Config) (name key value : String) : Config :=
  ⟨setSec c.sections name (optionxform key) value⟩

/-- Raw option lookup; `key` is an already-transformed option name. -/
def Config.getOpt (c : Config) (name key : String) : Option String :=
  match findSec c.sections name with
  | none => none
  | some items => lookupKey items key

/-- `ConfigParser.get(section, option, fallback=...)`: the fallback is used
when the section or the option is missing. -/
def Config.getD (c : Config) (name key fallback : String) : String :=
  match c.getOpt name (optionxform key) with
  | some v => v
  | none => fallback

/-- `ConfigParser.has_option` (call sites guard the section's existence). -/
def Config.has_option (c : Config) (name key : String) : Bool :=
  (c.getOpt name (optionxform key)).isSome

/-- Parsed sectioned file content. -/
abbrev FileData := List (String × List (String × String))

/-- `DEFAULT_SETUP` of `elephant_setup.py`. -/
def DEFAULT_SETUP : FileData :=
  [("general",
     [("setup_name", "New Setup"),
      ("setup_comment", ""),
      ("last_modified", "---"),
      ("aut_name", "No AUT Name")]),
   ("hardware",
     [("some_hw_attr", "12321")])]

/-- Merge parsed sectioned data into the parser state, as `ConfigParser.read`
does: ensure each section exists, then set every `(key, value)` in order --
existing values are overwritten in place, new keys are appended.
`ElephantSetup._load_defaults` runs the same loop with `DEFAULT_SETUP` as the
data. -/
def Config.readData (c : Config) (fd : FileData) : Config :=
  fd.foldl
    (fun c sec =>
      sec.2.foldl (fun c kv => c.set sec.1 kv.1 kv.2)
        (if c.hasSection sec.1 then c else c.add_section sec.1))
    c

/-- `ElephantSetup._load_defaults`. -/
def load_defaults (c : Config) : Config := c.readData DEFAULT_SETUP

/-- The default-injection loop of `load_setup_file`: for every schema entry,
add the section when missing and set the default only when the option is
absent. -/
def injectList (c : Config) (schema : FileData) : Config :=
  schema.foldl
    (fun c sec =>
      sec.2.foldl
        (fun c kv => if c.has_option sec.1 kv.1 then c else c.set sec.1 kv.1 kv.2)
        (if c.hasSection sec.1 then c else c.add_section sec.1))
    c

/-- Default injection against `DEFAULT_SETUP`. -/
def injectDefaults (c : Config) : Config := injectList c DEFAULT_SETUP

/-- The `ElephantSetup` document state. The opaque dirty-change callback is
modeled by whether one is registered plus an invocation counter. -/
structure ElephantSetup where
  config : Config
  expected_sections : List String
  path : Option String
  dirty : Bool
  hasCallback : Bool
  callbackCalls : Nat
deriving DecidableEq

/-- `ElephantSetup.__init__`: load defaults into a fresh parser; fixed
`expected_sections`; no path; clean; callback registered iff
`setup_is_dirty_callback` was not `None`, never yet invoked. -/
def initSetup (hasCb : Bool) : ElephantSetup :=
  { config := load_defaults emptyConfig
    expected_sections := ["general", "hardware"]
    path := none
    dirty := false
    hasCallback := hasCb
    callbackCalls := 0 }

/-- `ElephantSetup._set_dirty`: raise the flag and invoke the callback when
one is registered. -/
def ElephantSetup.set_dirty (s : ElephantSetup) : ElephantSetup :=
  { s with dirty := true,
           callbackCalls := if s.hasCallback then s.callbackCalls + 1 else s.callbackCalls }

/-- `ElephantSetup._set_clean`: clear the flag and invoke the callback when
one is registered (the callback fires whether or not the flag changed). -/
def ElephantSetup.set_clean (s : ElephantSetup) : ElephantSetup :=
  { s with dirty := false,
           callbackCalls := if s.hasCallback then s.callbackCalls + 1 else s.callbackCalls }

/-- `SectionWrapper.__getattr__`: `config.get(section, item, fallback="")`. -/
def sectionRead (c : Config) (secName item : String) : String :=
  c.getD secName item ""

/-- Document-level read through the section accessor (the spec's
`get(section, key)`). -/
def ElephantSetup.get (s : ElephantSetup) (secName key : String) : String :=
  sectionRead s.config secName key

/-- `SectionWrapper.__setattr__`, non-private branch (the spec's
`set(section, key, value)`): ensure the section exists, set the value, mark
the parent document dirty. -/
def ElephantSetup.setValue (s : ElephantSetup) (secName key value : String) : ElephantSetup :=
  let c := if s.config.hasSection secName then s.config else s.config.add_section secName
  ({ s with config := c.set secName key value }).set_dirty

/-- File system: a map from path to parsed sectioned content. A path absent
from the map is a path for which `os.path.isfile` is false. -/
abbrev FS := List (String × FileData)

/-- Lookup of a path in the file system. -/
def fsFind : FS → String → Option FileData
  | [], _ => none
  | (p, fd) :: rest, q => if p = q then some fd else fsFind rest q

/-- Writing a file: replace the content at `p`, or create the file. -/
def fsWrite : FS → String → FileData → FS
  | [], p, fd => [(p, fd)]
  | (q, old) :: rest, p, fd =>
      if q = p then (q, fd) :: rest else (q, old) :: fsWrite rest p fd

/-- `ElephantSetup.load_setup_file`. Returns the updated document and the
Python return value: `some false` when `os.path.isfile` fails, and `none`
(Python's `None`: the function body has no `return` on the success path)
otherwise. On success: remember the path, merge the file's content over the
current parser state, inject missing defaults, mark clean. -/
def ElephantSetup.load_setup_file (s : ElephantSetup) (fs : FS) (p : String) :
    ElephantSetup × Option Bool :=
  match fsFind fs p with
  | none => (s, some false)
  | some fd =>
      (({ s with path := some p,
                 config := injectDefaults (s.config.readData fd) }).set_clean, none)

/-- Where, if anywhere, an `OSError` is raised inside the `try` block of
`save_setup_file`. All three failure points are caught by the same
`except OSError`: `openFail` means `open(save_path, 'w')` itself raised, so
nothing was written; `writeFail` means `config.write` raised after `open('w')`
had already truncated the file, leaving indeterminate partial content;
`closeFail` means the implicit `close`/flush at the end of the `with` block
raised, after `_set_clean()` had already run. The partial content left behind
by a failed write or flush is not determined by the source, so those outcomes
carry it as data. -/
inductive SaveOutcome where
  | ok
  | openFail
  | writeFail (partialContent : FileData)
  | closeFail (partialContent : FileData)
deriving DecidableEq

/-- The `try` block of `save_setup_file` at the resolved path `p`: on success,
write all sections and run `_set_clean()`; on a failure at `open`, nothing has
happened; on a failure during `config.write`, the file was already truncated
by `open('w')` (partial content) and `_set_clean()` was not reached; on a
failure at the implicit `close`, `_set_clean()` has already cleared the dirty
flag and fired the callback, yet `False` is returned. -/
def saveAttempt (s : ElephantSetup) (fs : FS) (p : String) (outcome : SaveOutcome) :
    FS × ElephantSetup × Bool :=
  match outcome with
  | .ok => (fsWrite fs p s.config.sections, s.set_clean, true)
  | .openFail => (fs, s, false)
  | .writeFail pd => (fsWrite fs p pd, s, false)
  | .closeFail pd => (fsWrite fs p pd, s.set_clean, false)

/-- `ElephantSetup.save_setup_file`. Returns the file system, the document and
the boolean result. Note that an explicit `path` argument is recorded in
`self.path` before the write is attempted. -/
def ElephantSetup.save_setup_file (s : ElephantSetup) (fs : FS) (path : Option String)
    (outcome : SaveOutcome) : FS × ElephantSetup × Bool :=
  match path with
  | some p => saveAttempt { s with path := some p } fs p outcome
  | none =>
      match s.path with
      | some p => saveAttempt s fs p outcome
      | none => (fs, s, false)

/-- A `QLineEdit`, reduced to the capability the binder uses: its text. -/
structure LineEdit where
  text : String
deriving DecidableEq

/-- `hasattr(section_wrapper, path)`: `SectionWrapper.__getattr__` returns
`config.get(section, item, fallback="")` for every attribute not found
normally, so the lookup never raises and `hasattr` is `True` for every path
(and also for the three real instance attributes). -/
def sectionHasattr (_c : Config) (_secName _path : String) : Bool := true

/-- `SetupBinder.bind_line_edit`: scan `expected_sections` in order; on the
first section whose wrapper satisfies `hasattr(section, path)`, set the widget
text from `getattr(section, path)` and connect an `update_setup` closure
capturing that section and path, then `break`. The returned option is the
installed binding record `(section, key)`; `none` when no listener was
connected. -/
def bind_line_edit (s : ElephantSetup) (le : LineEdit) (path : String) :
    LineEdit × Option (String × String) :=
  match s.expected_sections.find? (fun n => sectionHasattr s.config n path) with
  | some secName => ({ le with text := sectionRead s.config secName path }, some (secName, path))
  | none => (le, none)

/-- Binder-level state: how many times `value_changed` has been emitted. -/
structure BinderState where
  value_changed_emits : Nat
deriving DecidableEq

/-- A user edit of a line edit: the widget text changes, then `textChanged`
fires the connected `update_setup` closure, which runs
`setattr(section, path, text)` followed by `value_changed.emit()`. With no
binding installed, only the widget text changes. -/
def editLineEdit (s : ElephantSetup) (b : BinderState) (le : LineEdit)
    (binding : Option (String × String)) (newText : String) :
    ElephantSetup × BinderState × LineEdit :=
  match binding with
  | some sk =>
      (s.setValue sk.1 sk.2 newText, ⟨b.value_changed_emits + 1⟩, { le with text := newText })
  | none => (s, b, { le with text := newText })

/-- Well-formedness satisfied by every state a real `ConfigParser` can reach:
distinct section names, and within each section distinct keys that are already
in `optionxform` normal form (configparser's backing dicts cannot hold
duplicates, and `set`/`read` store transformed option names). -/
def Config.WF (c : Config) : Prop :=
  (c.sections.map Prod.fst).Nodup ∧
    ∀ sec ∈ c.sections, (sec.2.map Prod.fst).Nodup ∧ ∀ kv ∈ sec.2, optionxform kv.1 = kv.1

instance (c : Config) : Decidable c.WF := by
  unfold Config.WF
  infer_instance

theorem lookupKey_setKey (items : SectionData) (k v k' : String) :
    lookupKey (setKey items k v) k' = if k' = k then some v else lookupKey items k' := by
  induction items with
  | nil =>
      by_cases h : k' = k
      · subst h; simp [setKey, lookupKey]
      · simp [setKey, lookupKey, h, Ne.symm h]
  | cons hd tl ih =>
      obtain ⟨k0, v0⟩ := hd
      by_cases h0 : k0 = k
      · subst h0
        by_cases h1 : k' = k0
        · subst h1; simp [setKey, lookupKey]
        · simp [setKey, lookupKey, h1, Ne.symm h1]
      · by_cases h1 : k0 = k'
        · subst h1
          simp [setKey, lookupKey, h0, Ne.symm h0]
        · simp [setKey, lookupKey, h0, h1, ih]

theorem lookupKey_eq_none_of_not_mem (items : SectionData) (k : String)
    (h : k ∉ items.map Prod.fst) : lookupKey items k = none := by
  induction items with
  | nil => simp [lookupKey]
  | cons hd tl ih =>
      simp only [List.map_cons, List.mem_cons] at h
      push_neg at h
      simp [lookupKey, Ne.symm h.1, ih h.2]

theorem lookupKey_of_mem (items : SectionData) (k v : String)
    (hnd : (items.map Prod.fst).Nodup) (h : (k, v) ∈ items) : lookupKey items k = some v := by
  induction items with
  | nil => simp at h
  | cons hd tl ih =>
      obtain ⟨k0, v0⟩ := hd
      simp only [List.map_cons, List.nodup_cons] at hnd
      rcases List.mem_cons.mp h with h1 | h1
      · obtain ⟨hk, hv⟩ := Prod.mk.injEq .. ▸ h1
        subst hk; subst hv
        simp [lookupKey]
      · have hk0 : k0 ≠ k := by
          intro he
          subst he
          exact hnd.1 (List.mem_map.mpr ⟨(k0, v), h1, rfl⟩)
        simp [lookupKey, hk0, ih hnd.2 h1]

theorem findSec_eq_none_of_not_mem (secs : List (String × SectionData)) (n : String)
    (h : n ∉ secs.map Prod.fst) : findSec secs n = none := by
  induction secs with
  | nil => simp [findSec]
  | cons hd tl ih =>
      simp only [List.map_cons, List.mem_cons] at h
      push_neg at h
      simp [findSec, Ne.symm h.1, ih h.2]

theorem findSec_of_mem (secs : List (String × SectionData)) (n : String) (items : SectionData)
    (hnd : (secs.map Prod.fst).Nodup) (h : (n, items) ∈ secs) : findSec secs n = some items := by
  induction secs with
  | nil => simp at h
  | cons hd tl ih =>
      obtain ⟨n0, items0⟩ := hd
      simp only [List.map_cons, List.nodup_cons] at hnd
      rcases List.mem_cons.mp h with h1 | h1
      · obtain ⟨hk, hv⟩ := Prod.mk.injEq .. ▸ h1
        subst hk; subst hv
        simp [findSec]
      · have hn0 : n0 ≠ n := by
          intro he
          subst he
          exact hnd.1 (List.mem_map.mpr ⟨(n0, items), h1, rfl⟩)
        simp [findSec, hn0, ih hnd.2 h1]

theorem findSec_mem (secs : List (String × SectionData)) (n : String) (items : SectionData)
    (h : findSec secs n = some items) : (n, items) ∈ secs := by
  induction secs with
  | nil => simp [findSec] at h
  | cons hd tl ih =>
      obtain ⟨n0, items0⟩ := hd
      by_cases h0 : n0 = n
      · subst h0
        simp [findSec] at h
        subst h
        exact List.mem_cons_self ..
      · simp [findSec, h0] at h
        exact List.mem_cons_of_mem _ (ih h)

theorem getOpt_set (c : Config) (n k v m k' : String) :
    (c.set n k v).getOpt m k' =
      if m = n then (if k' = optionxform k then some v else c.getOpt m k')
      else c.getOpt m k' := by
  obtain ⟨secs⟩ := c
  induction secs with
  | nil =>
      by_cases hm : m = n
      · subst hm
        by_cases hk : k' = optionxform k
        · subst hk; simp [Config.set, Config.getOpt, setSec, findSec, lookupKey]
        · simp [Config.set, Config.getOpt, setSec, findSec, lookupKey, hk, Ne.symm hk]
      · simp [Config.set, Config.getOpt, setSec, findSec, Ne.symm hm, hm]
  | cons hd tl ih =>
      obtain ⟨n0, items0⟩ := hd
      by_cases h0 : n0 = n
      · subst h0
        by_cases hm : n0 = m
        · subst hm
          simp [Config.set, Config.getOpt, setSec, findSec, lookupKey_setKey]
        · simp [Config.set, Config.getOpt, setSec, findSec, hm, Ne.symm hm]
      · by_cases hm : n0 = m
        · subst hm
          simp [Config.set, Config.getOpt, setSec, findSec, h0, Ne.symm h0]
        · have ih' := ih
          simp only [Config.set, Config.getOpt, setSec, findSec, h0, hm, if_false] at ih' ⊢
          exact ih'

theorem getOpt_add_section (c : Config) (n m k' : String) :
    (c.add_section n).getOpt m k' = c.getOpt m k' := by
  obtain ⟨secs⟩ := c
  induction secs with
  | nil =>
      by_cases hm : n = m <;>
        simp [Config.add_section, Config.getOpt, findSec, lookupKey, hm]
  | cons hd tl ih =>
      obtain ⟨n0, items0⟩ := hd
      by_cases hm : n0 = m
      · simp [Config.add_section, Config.getOpt, findSec, hm]
      · have ih' := ih
        simp only [Config.add_section, Config.getOpt, findSec, hm, if_false,
          List.cons_append] at ih' ⊢
        exact ih'

theorem hasSection_set (c : Config) (n k v m : String) :
    (c.set n k v).hasSection m = if m = n then true else c.hasSection m := by
  obtain ⟨secs⟩ := c
  induction secs with
  | nil =>
      by_cases hm : m = n
      · subst hm; simp [Config.set, Config.hasSection, setSec, findSec]
      · simp [Config.set, Config.hasSection, setSec, findSec, hm, Ne.symm hm]
  | cons hd tl ih =>
      obtain ⟨n0, items0⟩ := hd
      by_cases h0 : n0 = n
      · subst h0
        by_cases hm : n0 = m
        · subst hm; simp [Config.set, Config.hasSection, setSec, findSec]
        · simp [Config.set, Config.hasSection, setSec, findSec, hm, Ne.symm hm]
      · by_cases hm : n0 = m
        · subst hm
          simp [Config.set, Config.hasSection, setSec, findSec, h0, Ne.symm h0]
        · have ih' := ih
          simp only [Config.set, Config.hasSection, setSec, findSec, h0, hm, if_false] at ih' ⊢
          exact ih'

theorem foldSet_getOpt (items : List (String × String)) (n : String) :
    ∀ (c : Config) (m k' : String), (items.map Prod.fst).Nodup →
      (∀ kv ∈ items, optionxform kv.1 = kv.1) →
      (items.foldl (fun c kv => c.set n kv.1 kv.2) c).getOpt m k' =
        if m = n then
          (match lookupKey items k' with
           | some v => some v
           | none => c.getOpt m k')
        else c.getOpt m k' := by
  induction items with
  | nil =>
      intro c m k' _ _
      simp [lookupKey]
  | cons hd tl ih =>
      intro c m k' hnd hfix
      obtain ⟨k0, v0⟩ := hd
      simp only [List.map_cons, List.nodup_cons] at hnd
      have hfix0 : optionxform k0 = k0 := hfix (k0, v0) (List.mem_cons_self ..)
      have hfixtl : ∀ kv ∈ tl, optionxform kv.1 = kv.1 :=
        fun kv h => hfix kv (List.mem_cons_of_mem _ h)
      rw [List.foldl_cons, ih (c.set n k0 v0) m k' hnd.2 hfixtl]
      by_cases hm : m = n
      · subst hm
        by_cases hk' : k0 = k'
        · subst hk'
          rw [lookupKey_eq_none_of_not_mem tl k0 hnd.1]
          simp [lookupKey, getOpt_set, hfix0]
        · cases htl : lookupKey tl k' with
          | some v => simp [lookupKey, Ne.symm hk', hk', htl]
          | none =>
              have hk'2 : ¬(k' = optionxform k0) := by rw [hfix0]; exact Ne.symm hk'
              simp [lookupKey, hk', Ne.symm hk', htl, getOpt_set, hk'2]
      · simp [getOpt_set, hm]

theorem readData_getOpt (fd : FileData) :
    ∀ (c : Config) (m k' : String),
      (fd.map Prod.fst).Nodup →
      (∀ e ∈ fd, (e.2.map Prod.fst).Nodup ∧ ∀ kv ∈ e.2, optionxform kv.1 = kv.1) →
      (c.readData fd).getOpt m k' =
        match findSec fd m with
        | some items =>
            (match lookupKey items k' with
             | some v => some v
             | none => c.getOpt m k')
        | none => c.getOpt m k' := by
  induction fd with
  | nil =>
      intro c m k' _ _
      simp [Config.readData, findSec]
  | cons hd tl ih =>
      intro c m k' hnd hsec
      obtain ⟨n0, items0⟩ := hd
      simp only [List.map_cons, List.nodup_cons] at hnd
      have hsec0 := hsec (n0, items0) (List.mem_cons_self ..)
      have hsectl : ∀ e ∈ tl, (e.2.map Prod.fst).Nodup ∧ ∀ kv ∈ e.2, optionxform kv.1 = kv.1 :=
        fun e h => hsec e (List.mem_cons_of_mem _ h)
      have hbase : ∀ k'',
          ((if c.hasSection n0 then c else c.add_section n0).getOpt m k'') = c.getOpt m k'' := by
        intro k''
        by_cases hb : c.hasSection n0 = true <;> simp [hb, getOpt_add_section]
      simp only [Config.readData, List.foldl_cons] at ih ⊢
      rw [ih _ m k' hnd.2 hsectl]
      by_cases hm : n0 = m
      · subst hm
        rw [findSec_eq_none_of_not_mem tl n0 hnd.1]
        rw [foldSet_getOpt items0 n0 _ n0 k' hsec0.1 hsec0.2]
        cases hlk : lookupKey items0 k' <;> simp [findSec, hbase, hlk]
      · rw [foldSet_getOpt items0 n0 _ m k' hsec0.1 hsec0.2]
        have hmn : ¬(m = n0) := Ne.symm hm
        simp only [if_neg hmn, hbase]
        simp only [findSec, if_neg hm]

theorem foldInject_getOpt_pres (items : List (String × String)) (n : String) :
    ∀ (c : Config) (m k' v : String), c.getOpt m k' = some v →
      ((items.foldl (fun c kv => if c.has_option n kv.1 then c else c.set n kv.1 kv.2) c).getOpt
          m k') = some v := by
  induction items with
  | nil =>
      intro c m k' v h
      simpa using h
  | cons hd tl ih =>
      intro c m k' v h
      obtain ⟨k0, d0⟩ := hd
      rw [List.foldl_cons]
      apply ih
      by_cases hopt : c.has_option n k0 = true
      · simpa [hopt] using h
      · have hopt' : c.getOpt n (optionxform k0) = none := by
          simpa [Config.has_option, Option.not_isSome_iff_eq_none] using hopt
        rw [if_neg (by simp [hopt]), getOpt_set]
        by_cases hm : m = n
        · subst hm
          by_cases hk : k' = optionxform k0
          · rw [hk] at h
            rw [h] at hopt'
            exact absurd hopt' (by simp)
          · simp [hk, h]
        · simp [hm, h]

theorem foldInject_isSome_pres (items : List (String × String)) (n : String) (c : Config)
    (m k' : String) (h : (c.getOpt m k').isSome) :
    ((items.foldl (fun c kv => if c.has_option n kv.1 then c else c.set n kv.1 kv.2) c).getOpt
        m k').isSome := by
  obtain ⟨v, hv⟩ := Option.isSome_iff_exists.mp h
  rw [foldInject_getOpt_pres items n c m k' v hv]
  rfl

theorem foldInject_establishes (items : List (String × String)) (n : String) :
    ∀ (c : Config) (k0 d0 : String), (k0, d0) ∈ items →
      ((items.foldl (fun c kv => if c.has_option n kv.1 then c else c.set n kv.1 kv.2) c).getOpt
          n (optionxform k0)).isSome := by
  induction items with
  | nil =>
      intro c k0 d0 h
      simp at h
  | cons hd tl ih =>
      intro c k0 d0 hmem
      obtain ⟨k1, d1⟩ := hd
      rw [List.foldl_cons]
      rcases List.mem_cons.mp hmem with h1 | h1
      · obtain ⟨hk, hd⟩ := Prod.mk.injEq .. ▸ h1
        subst hk; subst hd
        apply foldInject_isSome_pres
        by_cases hopt : c.has_option n k0 = true
        · rw [if_pos hopt]
          simpa [Config.has_option] using hopt
        · rw [if_neg (by simp [hopt]), getOpt_set]
          simp
      · exact ih _ k0 d0 h1

theorem hasSection_foldInject_pres (items : List (String × String)) (n : String) :
    ∀ (c : Config) (m : String), c.hasSection m = true →
      ((items.foldl (fun c kv => if c.has_option n kv.1 then c else c.set n kv.1 kv.2)
          c).hasSection m) = true := by
  induction items with
  | nil =>
      intro c m h
      simpa using h
  | cons hd tl ih =>
      intro c m h
      rw [List.foldl_cons]
      apply ih
      by_cases hopt : c.has_option n hd.1 = true
      · simpa [hopt] using h
      · rw [if_neg (by simp [hopt]), hasSection_set]
        by_cases hm : m = n <;> simp [hm, h]

theorem hasSection_add_section (c : Config) (n m : String) :
    (c.add_section n).hasSection m = if m = n then true else c.hasSection m := by
  obtain ⟨secs⟩ := c
  induction secs with
  | nil =>
      by_cases hm : m = n
      · subst hm; simp [Config.add_section, Config.hasSection, findSec]
      · simp [Config.add_section, Config.hasSection, findSec, hm, Ne.symm hm]
  | cons hd tl ih =>
      obtain ⟨n0, items0⟩ := hd
      by_cases hm : n0 = m
      · subst hm
        by_cases h1 : n0 = n <;>
          simp [Config.add_section, Config.hasSection, findSec, h1]
      · have ih' := ih
        simp only [Config.add_section, Config.hasSection, findSec, hm, if_false,
          List.cons_append] at ih' ⊢
        exact ih'

theorem injectList_cons (c : Config) (hd : String × List (String × String)) (tl : FileData) :
    injectList c (hd :: tl) =
      injectList
        (hd.2.foldl (fun c kv => if c.has_option hd.1 kv.1 then c else c.set hd.1 kv.1 kv.2)
          (if c.hasSection hd.1 then c else c.add_section hd.1)) tl := by
  simp only [injectList, List.foldl_cons]

theorem injectList_getOpt_pres (schema : FileData) :
    ∀ (c : Config) (m k' v : String), c.getOpt m k' = some v →
      (injectList c schema).getOpt m k' = some v := by
  induction schema with
  | nil =>
      intro c m k' v h
      simpa [injectList] using h
  | cons hd tl ih =>
      intro c m k' v h
      rw [injectList_cons]
      apply ih
      apply foldInject_getOpt_pres
      by_cases hb : c.hasSection hd.1 = true
      · simpa [hb] using h
      · rw [if_neg (by simp [hb]), getOpt_add_section]
        exact h

theorem injectList_isSome_pres (schema : FileData) (c : Config) (m k' : String)
    (h : (c.getOpt m k').isSome) : ((injectList c schema).getOpt m k').isSome := by
  obtain ⟨v, hv⟩ := Option.isSome_iff_exists.mp h
  rw [injectList_getOpt_pres schema c m k' v hv]
  rfl

theorem injectList_establishes (schema : FileData) :
    ∀ (c : Config) (n : String) (items : List (String × String)) (k0 d0 : String),
      (n, items) ∈ schema → (k0, d0) ∈ items →
      ((injectList c schema).getOpt n (optionxform k0)).isSome := by
  induction schema with
  | nil =>
      intro c n items k0 d0 hmem _
      simp at hmem
  | cons hd tl ih =>
      intro c n items k0 d0 hmem hkv
      rw [injectList_cons]
      rcases List.mem_cons.mp hmem with h1 | h1
      · subst h1
        apply injectList_isSome_pres
        exact foldInject_establishes _ _ _ k0 d0 hkv
      · exact ih _ n items k0 d0 h1 hkv

theorem injectList_hasSection_pres (schema : FileData) :
    ∀ (c : Config) (m : String), c.hasSection m = true →
      (injectList c schema).hasSection m = true := by
  induction schema with
  | nil =>
      intro c m h
      simpa [injectList] using h
  | cons hd tl ih =>
      intro c m h
      rw [injectList_cons]
      apply ih
      apply hasSection_foldInject_pres
      by_cases hb : c.hasSection hd.1 = true
      · simpa [hb] using h
      · rw [if_neg (by simp [hb]), hasSection_add_section]
        by_cases hm : m = hd.1 <;> simp [hm, h]

theorem injectList_hasSection_establishes (schema : FileData) :
    ∀ (c : Config) (n : String) (items : List (String × String)), (n, items) ∈ schema →
      (injectList c schema).hasSection n = true := by
  induction schema with
  | nil =>
      intro c n items hmem
      simp at hmem
  | cons hd tl ih =>
      intro c n items hmem
      rw [injectList_cons]
      rcases List.mem_cons.mp hmem with h1 | h1
      · subst h1
        apply injectList_hasSection_pres
        apply hasSection_foldInject_pres
        by_cases hb : c.hasSection n = true
        · simp [hb]
        · rw [if_neg (by simp [hb]), hasSection_add_section]
          simp
      · exact ih _ n items h1

theorem fsFind_fsWrite_self (fs : FS) (p : String) (fd : FileData) :
    fsFind (fsWrite fs p fd) p = some fd := by
  induction fs with
  | nil => simp [fsWrite, fsFind]
  | cons hd tl ih =>
      obtain ⟨q, old⟩ := hd
      by_cases hq : q = p
      · subst hq
        simp [fsWrite, fsFind]
      · simp [fsWrite, fsFind, hq, ih]

/-- Every key of the default schema is already in `optionxform` normal form. -/
theorem default_keys_fixed : ∀ e ∈ DEFAULT_SETUP, ∀ kv ∈ e.2, optionxform kv.1 = kv.1 := by
  decide

/-- C9: `create(defaults)` yields a document where `get(section, key)` equals the
default value for every entry of the default schema; the fixed schema has
sections `general` (`setup_name`, `setup_comment`, `last_modified`, `aut_name`)
and `hardware` (`some_hw_attr`), with `general.setup_name` defaulting to
`"New Setup"`. Holds whether or not a dirty callback is registered. -/
theorem C9_constructor_defaults (b : Bool) :
    (∀ e ∈ DEFAULT_SETUP, ∀ kv ∈ e.2, (initSetup b).get e.1 kv.1 = kv.2) ∧
    DEFAULT_SETUP.map Prod.fst = ["general", "hardware"] ∧
    DEFAULT_SETUP.map (fun e => (e.1, e.2.map Prod.fst)) =
      [("general", ["setup_name", "setup_comment", "last_modified", "aut_name"]),
       ("hardware", ["some_hw_attr"])] ∧
    (initSetup b).get "general" "setup_name" = "New Setup" := by
  cases b <;> decide

/-- C1: reading any `(section, key)` through the document's section accessor is
total (the Lean function `ElephantSetup.get` returns a `String` on every
input, mirroring `fallback=""`, so it never fails); on any well-formed store it
yields the stored value when the key is present in the section, and the empty
string when the section is absent or the key is absent from it. -/
theorem C1_get_total_correct (s : ElephantSetup) (secName key : String)
    (hnd : (s.config.sections.map Prod.fst).Nodup)
    (hknd : ∀ e ∈ s.config.sections, (e.2.map Prod.fst).Nodup) :
    (∀ items v, (secName, items) ∈ s.config.sections → (optionxform key, v) ∈ items →
        s.get secName key = v) ∧
    ((∀ items, (secName, items) ∈ s.config.sections → optionxform key ∉ items.map Prod.fst) →
        s.get secName key = "") := by
  constructor
  · intro items v hsec hkv
    have hfs : findSec s.config.sections secName = some items := findSec_of_mem _ _ _ hnd hsec
    have hlk : lookupKey items (optionxform key) = some v :=
      lookupKey_of_mem _ _ _ (hknd _ hsec) hkv
    simp [ElephantSetup.get, sectionRead, Config.getD, Config.getOpt, hfs, hlk]
  · intro habs
    cases hfs : findSec s.config.sections secName with
    | none => simp [ElephantSetup.get, sectionRead, Config.getD, Config.getOpt, hfs]
    | some items =>
        have hmem := findSec_mem _ _ _ hfs
        have hnone : lookupKey items (optionxform key) = none :=
          lookupKey_eq_none_of_not_mem _ _ (habs items hmem)
        simp [ElephantSetup.get, sectionRead, Config.getD, Config.getOpt, hfs, hnone]

/-- C1 witness: the theorem applied to the freshly constructed document, at a
present key and at an absent key. -/
theorem C1_witness :
    (initSetup false).get "general" "setup_name" = "New Setup" ∧
    (initSetup false).get "general" "nonexistent_key" = "" := by
  constructor
  · exact (C1_get_total_correct (initSetup false) "general" "setup_name" (by decide)
      (by decide)).1
      [("setup_name", "New Setup"), ("setup_comment", ""), ("last_modified", "---"),
       ("aut_name", "No AUT Name")]
      "New Setup" (by decide) (by decide)
  · apply (C1_get_total_correct (initSetup false) "general" "nonexistent_key" (by decide)
      (by decide)).2
    intro items h
    have hsections : (initSetup false).config.sections =
        [("general", [("setup_name", "New Setup"), ("setup_comment", ""),
           ("last_modified", "---"), ("aut_name", "No AUT Name")]),
         ("hardware", [("some_hw_attr", "12321")])] := by decide
    rw [hsections] at h
    simp only [List.mem_cons, List.not_mem_nil, or_false] at h
    rcases h with h | h
    · obtain ⟨-, h2⟩ := Prod.mk.injEq .. ▸ h
      subst h2
      decide
    · obtain ⟨h1, -⟩ := Prod.mk.injEq .. ▸ h
      exact absurd h1 (by decide)

/-- C2 (the code violates the claim): `SectionWrapper.__getattr__` uses
`fallback=""`, so `hasattr(section, path)` is true for every path and
`bind_line_edit` always binds to the first declared section. The key
`some_hw_attr` is exposed only by section `hardware`, yet the element is bound
to `general` and its display is set to `""`; a name matching no key in any
section (`nonexistent_key`) is still bound to `general` and its display is
overwritten, instead of being left unbound and unchanged. -/
theorem C2_bind_always_first_section :
    (initSetup false).config.has_option "general" "some_hw_attr" = false ∧
    (initSetup false).config.has_option "hardware" "some_hw_attr" = true ∧
    bind_line_edit (initSetup false) ⟨"old"⟩ "some_hw_attr"
      = (⟨""⟩, some ("general", "some_hw_attr")) ∧
    (initSetup false).config.has_option "general" "nonexistent_key" = false ∧
    (initSetup false).config.has_option "hardware" "nonexistent_key" = false ∧
    (initSetup false).config.sections.map Prod.fst = ["general", "hardware"] ∧
    bind_line_edit (initSetup false) ⟨"old"⟩ "nonexistent_key"
      = (⟨""⟩, some ("general", "nonexistent_key")) := by
  decide

/-- C4 (the code violates its own docstring): `load_setup_file` returns `False`
(`some false`) when the file does not exist, but on the success path it falls
through without a `return`, yielding Python's `None` (`none`) rather than the
documented `True`. -/
theorem C4_load_return_value :
    ((initSetup false).load_setup_file [] "setup.toml").2 = some false ∧
    ((initSetup false).load_setup_file
        [("setup.toml", [("general", [("setup_name", "X")])])] "setup.toml").2 = none ∧
    ((initSetup false).load_setup_file
        [("setup.toml", [("general", [("setup_name", "X")])])] "setup.toml").2 ≠ some true := by
  decide

/-- C6: with a document holding `general.setup_name = "Blank Setup"` (obtained
by a fresh load, hence clean) and one editable element named with the editable
prefix plus `setup_name`, `bind` sets the displayed value to `"Blank Setup"`
and installs a write-back listener; editing the element to `"Renamed"` writes
through to `get("general","setup_name")`, marks the document dirty, and emits
one binder-level `value_changed` notification. -/
theorem C6_binder_basic_case :
    let fs0 : FS := [("blank.toml", [("general", [("setup_name", "Blank Setup")])])]
    let s0 := ((initSetup true).load_setup_file fs0 "blank.toml").1
    let bound := bind_line_edit s0 ⟨""⟩ "setup_name"
    let edited := editLineEdit s0 ⟨0⟩ bound.1 bound.2 "Renamed"
    s0.get "general" "setup_name" = "Blank Setup" ∧
    s0.dirty = false ∧
    bound.1.text = "Blank Setup" ∧
    bound.2 = some ("general", "setup_name") ∧
    edited.1.get "general" "setup_name" = "Renamed" ∧
    edited.1.dirty = true ∧
    edited.2.1.value_changed_emits = 1 ∧
    edited.2.2.text = "Renamed" := by
  decide

/-- C5: dirty-flag life cycle. A freshly created document and a freshly loaded
document have `dirty = false`; one `set` call on a clean document makes
`dirty = true`; any subsequent successful save (whatever the target
resolution) returns `dirty` to `false`. -/
theorem C5_dirty_lifecycle (b : Bool) (s : ElephantSetup) (fs fs2 : FS) (p : String)
    (fd : FileData) (secName key value : String) (pa : Option String) (w : SaveOutcome) :
    (initSetup b).dirty = false ∧
    (fsFind fs p = some fd → ((initSetup b).load_setup_file fs p).1.dirty = false) ∧
    (s.dirty = false → (s.setValue secName key value).dirty = true) ∧
    ((s.save_setup_file fs2 pa w).2.2 = true → (s.save_setup_file fs2 pa w).2.1.dirty = false) := by
  refine ⟨rfl, ?_, ?_, ?_⟩
  · intro h
    simp [ElephantSetup.load_setup_file, h, ElephantSetup.set_clean]
  · intro _
    simp [ElephantSetup.setValue, ElephantSetup.set_dirty]
  · intro h
    cases pa with
    | some q =>
        cases w with
        | ok => simp [ElephantSetup.save_setup_file, saveAttempt, ElephantSetup.set_clean]
        | openFail => simp [ElephantSetup.save_setup_file, saveAttempt] at h
        | writeFail pd => simp [ElephantSetup.save_setup_file, saveAttempt] at h
        | closeFail pd => simp [ElephantSetup.save_setup_file, saveAttempt] at h
    | none =>
        cases hp : s.path with
        | some q =>
            cases w with
            | ok =>
                simp [ElephantSetup.save_setup_file, saveAttempt, hp, ElephantSetup.set_clean]
            | openFail => simp [ElephantSetup.save_setup_file, saveAttempt, hp] at h
            | writeFail pd => simp [ElephantSetup.save_setup_file, saveAttempt, hp] at h
            | closeFail pd => simp [ElephantSetup.save_setup_file, saveAttempt, hp] at h
        | none => simp [ElephantSetup.save_setup_file, hp] at h

/-- C5 witness: the life cycle on concrete data. -/
theorem C5_witness :
    (initSetup false).dirty = false ∧
    ((initSetup false).load_setup_file [("f.toml", [])] "f.toml").1.dirty = false ∧
    ((initSetup false).setValue "general" "setup_name" "x").dirty = true ∧
    (((initSetup false).setValue "general" "setup_name" "x").save_setup_file []
        (some "f.toml") SaveOutcome.ok).2.1.dirty = false := by
  have h := C5_dirty_lifecycle false ((initSetup false).setValue "general" "setup_name" "x")
    [("f.toml", [])] [] "f.toml" [] "general" "setup_name" "x" (some "f.toml") SaveOutcome.ok
  exact ⟨h.1, h.2.1 (by decide), (C5_dirty_lifecycle false (initSetup false)
    [("f.toml", [])] [] "f.toml" [] "general" "setup_name" "x" (some "f.toml")
      SaveOutcome.ok).2.2.1 (by decide), h.2.2.2 (by decide)⟩

/-- C3 counterexample: the claim fails twice over. A save with an explicit
target that fails with `WriteFailed` at `open` (nothing even written) still
records that target as the remembered location, because `self.path = path`
runs before the `try` block: the document started with no remembered path, the
save returns `False`, yet `path` is now the failed target. And a dirty
document whose save fails with `WriteFailed` at the implicit `close`/flush
comes back with `dirty = false`, because `_set_clean()` runs inside the `with`
block before the file is closed and the `OSError` raised at close is caught by
the same `except`. -/
theorem C3_counterexample :
    ((initSetup false).save_setup_file [] (some "out.toml") SaveOutcome.openFail).2.2 = false ∧
    (initSetup false).path = none ∧
    ((initSetup false).save_setup_file [] (some "out.toml") SaveOutcome.openFail).2.1.path
      = some "out.toml" ∧
    ((initSetup false).setValue "general" "setup_name" "x").dirty = true ∧
    (((initSetup false).setValue "general" "setup_name" "x").save_setup_file []
        (some "out.toml") (SaveOutcome.closeFail [])).2.2 = false ∧
    (((initSetup false).setValue "general" "setup_name" "x").save_setup_file []
        (some "out.toml") (SaveOutcome.closeFail [])).2.1.dirty = false := by
  decide

/-- C3 (amended): a `NoTarget` failure changes nothing at all, whatever would
have happened to the write. When save fails with `WriteFailed` because `open`
or `config.write` raised, the dirty flag keeps its prior value and the
callback count is untouched -- but an explicit target has already been
recorded as the remembered location (the path is assigned before the write is
attempted), and a failure during `config.write` leaves the target file
truncated with indeterminate partial content. When the `WriteFailed` failure
occurs at the implicit `close`/flush ending the `with` block, `_set_clean()`
has already run: save returns `False` with the dirty flag cleared and the
callback fired. -/
theorem C3_amended_save_failure (s : ElephantSetup) (fs : FS) (p : String) (pd : FileData) :
    (∀ w : SaveOutcome, s.path = none → s.save_setup_file fs none w = (fs, s, false)) ∧
    (s.save_setup_file fs (some p) SaveOutcome.openFail
      = (fs, { s with path := some p }, false)) ∧
    (s.save_setup_file fs (some p) (SaveOutcome.writeFail pd)
      = (fsWrite fs p pd, { s with path := some p }, false)) ∧
    ((s.save_setup_file fs (some p) (SaveOutcome.closeFail pd)).2.2 = false ∧
     (s.save_setup_file fs (some p) (SaveOutcome.closeFail pd)).2.1.dirty = false ∧
     (s.save_setup_file fs (some p) (SaveOutcome.closeFail pd)).2.1.callbackCalls
       = (if s.hasCallback then s.callbackCalls + 1 else s.callbackCalls)) ∧
    (s.path = some p → s.save_setup_file fs none SaveOutcome.openFail = (fs, s, false)) ∧
    (s.path = some p → s.save_setup_file fs none (SaveOutcome.writeFail pd)
      = (fsWrite fs p pd, s, false)) := by
  refine ⟨?_, ?_, ?_, ?_, ?_, ?_⟩
  · intro w h
    simp [ElephantSetup.save_setup_file, h]
  · simp [ElephantSetup.save_setup_file, saveAttempt]
  · simp [ElephantSetup.save_setup_file, saveAttempt]
  · simp [ElephantSetup.save_setup_file, saveAttempt, ElephantSetup.set_clean]
  · intro h
    simp [ElephantSetup.save_setup_file, saveAttempt, h]
  · intro h
    simp [ElephantSetup.save_setup_file, saveAttempt, h]

/-- C3 witness: the amended statement on concrete documents, covering the
`NoTarget` case, the explicit-target `openFail`, `writeFail` and `closeFail`
cases, and the remembered-target `openFail` case. -/
theorem C3_amended_witness :
    (initSetup false).save_setup_file [] none SaveOutcome.ok = ([], initSetup false, false) ∧
    (initSetup false).save_setup_file [] (some "o.toml") SaveOutcome.openFail
      = ([], { initSetup false with path := some "o.toml" }, false) ∧
    (initSetup false).save_setup_file [] (some "o.toml") (SaveOutcome.writeFail [])
      = ([("o.toml", [])], { initSetup false with path := some "o.toml" }, false) ∧
    ((initSetup false).save_setup_file [] (some "o.toml")
        (SaveOutcome.closeFail [])).2.1.dirty = false ∧
    ({ initSetup false with path := some "o.toml" } : ElephantSetup).save_setup_file [] none
        SaveOutcome.openFail
      = ([], { initSetup false with path := some "o.toml" }, false) :=
  ⟨(C3_amended_save_failure (initSetup false) [] "o.toml" []).1 SaveOutcome.ok (by decide),
   (C3_amended_save_failure (initSetup false) [] "o.toml" []).2.1,
   (C3_amended_save_failure (initSetup false) [] "o.toml" []).2.2.1,
   (C3_amended_save_failure (initSetup false) [] "o.toml" []).2.2.2.1.2.1,
   (C3_amended_save_failure { initSetup false with path := some "o.toml" } [] "o.toml"
      []).2.2.2.2.1 (by decide)⟩

/-- C10: when a callback is registered (`hasCallback = true`), it is invoked on
`set` (via `_set_dirty`) and on every clean transition: after every successful
load and after every successful save, via `_set_clean`. No hypothesis
constrains the prior dirty flag, so the callback fires even when the flag does
not change value (for example, loading into an already-clean document). -/
theorem C10_callback_on_clean_transitions (s : ElephantSetup) (fs fs2 : FS) (p q : String)
    (fd : FileData) (n k v : String) (hcb : s.hasCallback = true) :
    (s.setValue n k v).callbackCalls = s.callbackCalls + 1 ∧
    (fsFind fs p = some fd → ((s.load_setup_file fs p).1.callbackCalls = s.callbackCalls + 1 ∧
      (s.load_setup_file fs p).1.dirty = false)) ∧
    (s.save_setup_file fs2 (some q) SaveOutcome.ok).2.1.callbackCalls = s.callbackCalls + 1 ∧
    (s.path = some q → (s.save_setup_file fs2 none SaveOutcome.ok).2.1.callbackCalls
      = s.callbackCalls + 1) := by
  refine ⟨?_, ?_, ?_, ?_⟩
  · simp [ElephantSetup.setValue, ElephantSetup.set_dirty, hcb]
  · intro h
    simp [ElephantSetup.load_setup_file, h, ElephantSetup.set_clean, hcb]
  · simp [ElephantSetup.save_setup_file, saveAttempt, ElephantSetup.set_clean, hcb]
  · intro h
    simp [ElephantSetup.save_setup_file, saveAttempt, h, ElephantSetup.set_clean, hcb]

/-- C10 witness: a clean document with a registered callback; loading it (a
clean-to-clean transition) still invokes the callback once, as do `set` and a
successful save. -/
theorem C10_witness :
    (initSetup true).dirty = false ∧
    ((initSetup true).setValue "general" "setup_name" "x").callbackCalls = 1 ∧
    ((initSetup true).load_setup_file [("f.toml", [])] "f.toml").1.callbackCalls = 1 ∧
    ((initSetup true).save_setup_file [] (some "g.toml") SaveOutcome.ok).2.1.callbackCalls
      = 1 := by
  have h := C10_callback_on_clean_transitions (initSetup true) [("f.toml", [])] [] "f.toml"
    "g.toml" [] "general" "setup_name" "x" (by decide)
  exact ⟨by decide, h.1, (h.2.1 (by decide)).1, h.2.2.1⟩

set_option maxHeartbeats 1000000 in
/-- C8: after construction and after every successful load -- whatever the
loaded file contained and whatever the prior parser state -- every section of
the document's declared section list exists in the store and every
`(section, key)` of the default schema is present; in particular, loading a
file that lacks section `hardware` entirely yields
`get("hardware","some_hw_attr") = "12321"` with `dirty = false`. -/
theorem C8_defaults_invariant (b : Bool) (s : ElephantSetup) (fs : FS) (p : String)
    (fd : FileData) (hload : fsFind fs p = some fd)
    (hexp : s.expected_sections = ["general", "hardware"]) :
    (∀ e ∈ DEFAULT_SETUP, ∀ kv ∈ e.2, (initSetup b).config.has_option e.1 kv.1 = true) ∧
    (∀ n ∈ (initSetup b).expected_sections, (initSetup b).config.hasSection n = true) ∧
    (∀ e ∈ DEFAULT_SETUP, ∀ kv ∈ e.2,
        (s.load_setup_file fs p).1.config.has_option e.1 kv.1 = true) ∧
    (∀ n ∈ (s.load_setup_file fs p).1.expected_sections,
        (s.load_setup_file fs p).1.config.hasSection n = true) ∧
    ((initSetup false).load_setup_file [("m.toml", [("general", [("setup_name", "X")])])]
        "m.toml").1.get "hardware" "some_hw_attr" = "12321" ∧
    ((initSetup false).load_setup_file [("m.toml", [("general", [("setup_name", "X")])])]
        "m.toml").1.dirty = false := by
  have hs' : (s.load_setup_file fs p).1
      = ({ s with path := some p, config := injectDefaults (s.config.readData fd) }).set_clean := by
    simp [ElephantSetup.load_setup_file, hload]
  refine ⟨?_, ?_, ?_, ?_, ?_, ?_⟩
  · cases b <;> decide
  · cases b <;> decide
  · intro e he kv hkv
    rw [hs']
    simp only [ElephantSetup.set_clean, Config.has_option, injectDefaults]
    exact injectList_establishes DEFAULT_SETUP (s.config.readData fd) e.1 e.2 kv.1 kv.2
      (by rw [Prod.mk.eta]; exact he) (by rw [Prod.mk.eta]; exact hkv)
  · intro n hn
    rw [hs'] at hn ⊢
    simp only [ElephantSetup.set_clean, hexp] at hn
    simp only [ElephantSetup.set_clean, Config.hasSection, injectDefaults]
    simp only [List.mem_cons, List.not_mem_nil, or_false] at hn
    have hgen := injectList_hasSection_establishes DEFAULT_SETUP (s.config.readData fd) "general"
      [("setup_name", "New Setup"), ("setup_comment", ""), ("last_modified", "---"),
       ("aut_name", "No AUT Name")] (by decide)
    have hhw := injectList_hasSection_establishes DEFAULT_SETUP (s.config.readData fd) "hardware"
      [("some_hw_attr", "12321")] (by decide)
    simp only [Config.hasSection] at hgen hhw
    rcases hn with hn | hn
    · subst hn
      exact hgen
    · subst hn
      exact hhw
  · decide
  · decide

/-- C8 witness: the invariant exercised on a concrete load of a file that only
contains an (unknown-keyed) `general` section. -/
theorem C8_witness :
    ((initSetup false).load_setup_file [("w.toml", [("general", [("foo", "bar")])])]
        "w.toml").1.config.has_option "hardware" "some_hw_attr" = true ∧
    ((initSetup false).load_setup_file [("w.toml", [("general", [("foo", "bar")])])]
        "w.toml").1.config.hasSection "hardware" = true := by
  have h := C8_defaults_invariant false (initSetup false)
    [("w.toml", [("general", [("foo", "bar")])])] "w.toml" [("general", [("foo", "bar")])]
    (by decide) (by decide)
  exact ⟨h.2.2.1 ("hardware", [("some_hw_attr", "12321")]) (by decide)
      ("some_hw_attr", "12321") (by decide),
    h.2.2.2.1 "hardware" (by decide)⟩

/-- C7: round trip. For any document whose parser state is well-formed and
contains every key of the default schema (which holds for every reachable
document, by the C8 invariant), saving to a path and loading that path into a
fresh document yields the same `get(section, key)` for every key of the
default schema. -/
theorem C7_save_load_roundtrip (b : Bool) (s : ElephantSetup) (fs : FS) (p : String)
    (hwf : s.config.WF)
    (hdef : ∀ e ∈ DEFAULT_SETUP, ∀ kv ∈ e.2, (s.config.getOpt e.1 kv.1).isSome) :
    ∀ e ∈ DEFAULT_SETUP, ∀ kv ∈ e.2,
      ((initSetup b).load_setup_file (s.save_setup_file fs (some p) SaveOutcome.ok).1 p).1.get e.1 kv.1
        = s.get e.1 kv.1 := by
  intro e he kv hkv
  obtain ⟨hnd, hsec⟩ := hwf
  have hfs' : fsFind (s.save_setup_file fs (some p) SaveOutcome.ok).1 p
      = some s.config.sections := by
    simp [ElephantSetup.save_setup_file, saveAttempt, fsFind_fsWrite_self]
  have hfix : optionxform kv.1 = kv.1 := default_keys_fixed e he kv hkv
  obtain ⟨v, hv⟩ := Option.isSome_iff_exists.mp (hdef e he kv hkv)
  have hread : ((initSetup b).config.readData s.config.sections).getOpt e.1 kv.1 = some v := by
    rw [readData_getOpt s.config.sections _ e.1 kv.1 hnd hsec]
    have hv2 := hv
    simp only [Config.getOpt] at hv2
    cases hfse : findSec s.config.sections e.1 with
    | none => simp [hfse] at hv2
    | some items =>
        rw [hfse] at hv2
        have hv3 : lookupKey items kv.1 = some v := hv2
        simp [hv3]
  have hinj : (injectDefaults ((initSetup b).config.readData s.config.sections)).getOpt
      e.1 kv.1 = some v := injectList_getOpt_pres DEFAULT_SETUP _ e.1 kv.1 v hread
  have hcfg : ((initSetup b).load_setup_file (s.save_setup_file fs (some p) SaveOutcome.ok).1 p).1.config
      = injectDefaults ((initSetup b).config.readData s.config.sections) := by
    simp [ElephantSetup.load_setup_file, hfs', ElephantSetup.set_clean]
  have hsget : s.get e.1 kv.1 = v := by
    simp [ElephantSetup.get, sectionRead, Config.getD, hfix, hv]
  rw [hsget]
  simp only [ElephantSetup.get, sectionRead, Config.getD, hcfg, hfix, hinj]

/-- C7 witness: the round trip on the freshly constructed document through a
concrete path. -/
theorem C7_witness :
    ((initSetup false).load_setup_file
        ((initSetup false).save_setup_file [] (some "rt.toml") SaveOutcome.ok).1 "rt.toml").1.get
      "general" "setup_name" = (initSetup false).get "general" "setup_name" :=
  C7_save_load_roundtrip false (initSetup false) [] "rt.toml" (by decide) (by decide)
    ("general",
      [("setup_name", "New Setup"), ("setup_comment", ""), ("last_modified", "---"),
       ("aut_name", "No AUT Name")]) (by decide) ("setup_name", "New Setup") (by decide)
